import Mathlib

/-!
# go-dep: a verification development

A shallow embedding of `main.go` (the vendored-dependency fixer) together with
theorems about its branch fallback sequence, its path composition, its
case-insensitive manifest filter and the order of the external commands it runs.

Conventions of the embedding

* A Go `string` is a Lean `String` (a sequence of code points, i.e. a valid
  UTF-8 Go string); `len` is the UTF-8 byte length.
* A Go `error` is an `Option String`: `none` is `nil`, `some e` is an error
  whose text is `e`.
* A `*GovendorPackage` of the manifest is an `Option GovendorPackage`: `none` is
  the nil pointer, which `json.Unmarshal` stores for a `null` entry of the
  `package` array.  Dereferencing it panics, and a panic ends the run with exit
  code 2.
* Side effects are recorded in a trace of `Event`s, oldest first.  The outcome
  of an external command comes from a `World`, which may answer differently at
  every call because it is given the whole history.
-/

namespace GoDep

/-! ## Data model -/

/-- One entry of `vendor.json` (`GovendorPackage`). -/
structure GovendorPackage where
  CheckSum : String
  Path : String
  Revisiong : String
  RevisionTime : String
  Version : String
  VersionExact : String
  deriving DecidableEq, Repr

/-- The parsed manifest (`GovendorConfig`).  `Packages` is a slice of pointers, in
file order: an entry is `some` record, or `none` for a nil pointer. -/
structure GovendorConfig where
  Packages : List (Option GovendorPackage)
  deriving DecidableEq, Repr

def BRANCH_DEVELOP : String := "develop"
def BRANCH_STAGE : String := "stage"
def BRANCH_MASTER : String := "master"

/-- A Go `error` value: `none` is `nil`. -/
abbrev GoError := Option String

/-- How a call ends: it returns a value, or it panics. -/
inductive Ending (α : Type) where
  | returns (a : α)
  | panics
  deriving DecidableEq, Repr

/-! ## The parts of Go's `strings` package that `main.go` calls -/

/-- Go's `len(s)` for a string: the number of bytes. -/
def len (s : String) : Nat := s.utf8ByteSize

/-- Go's `strings.TrimRight(s, cutset)`: drop every trailing code point that
occurs in `cutset`. -/
def TrimRight (s cutset : String) : String :=
  ⟨s.data.rdropWhile (fun c => cutset.data.contains c)⟩

/-- Go's `strings.TrimLeft(s, cutset)`: drop every leading code point that
occurs in `cutset`. -/
def TrimLeft (s cutset : String) : String :=
  ⟨s.data.dropWhile (fun c => cutset.data.contains c)⟩

/-- The simple case mappings of the non-ASCII code points, Go's table
`unicode.CaseRanges`.  The table belongs to the Go standard library, so the
development takes it as a parameter; the ASCII range is handled in
`unicodeToLower` and `unicodeToUpper` exactly as `unicode.ToLower` and
`unicode.ToUpper` do before they consult the table. -/
structure CaseTable where
  lower : Char → Char
  upper : Char → Char

/-- Go's `unicode.ToLower(r)`. -/
def unicodeToLower (T : CaseTable) (r : Char) : Char :=
  if r.toNat ≤ 0x7F then
    if 'A'.toNat ≤ r.toNat ∧ r.toNat ≤ 'Z'.toNat then Char.ofNat (r.toNat + ('a'.toNat - 'A'.toNat))
    else r
  else T.lower r

/-- Go's `unicode.ToUpper(r)`. -/
def unicodeToUpper (T : CaseTable) (r : Char) : Char :=
  if r.toNat ≤ 0x7F then
    if 'a'.toNat ≤ r.toNat ∧ r.toNat ≤ 'z'.toNat then Char.ofNat (r.toNat - ('a'.toNat - 'A'.toNat))
    else r
  else T.upper r

/-- Go's `strings.ToLower(s)`: every code point is replaced by its lower case.
(For an ASCII-only string Go takes a byte loop with the same result.) -/
def ToLower (T : CaseTable) (s : String) : String :=
  ⟨s.data.map (unicodeToLower T)⟩

/-- Whether `sub` occurs in `s` starting at its first position or later. -/
def containsFrom (sub : List Char) : List Char → Bool
  | [] => sub.isEmpty
  | c :: cs => sub.isPrefixOf (c :: cs) || containsFrom sub cs

/-- Go's `strings.Contains(s, substr)`. -/
def Contains (s substr : String) : Bool :=
  containsFrom substr.data s.data

/-! ## `composePath` and `prepareBranches` -/

/-- `composePath` of `main.go`. -/
def composePath (root subdir : String) : String :=
  TrimRight root "/" ++ "/" ++ TrimLeft subdir "/"

/-- `prepareBranches` of `main.go`. -/
def prepareBranches (branch : String) : List String :=
  let branches := [BRANCH_MASTER]
  if branch = BRANCH_MASTER then branches
  else
    let branches := [BRANCH_STAGE] ++ branches
    if branch = BRANCH_STAGE then branches
    else
      let branches := [BRANCH_DEVELOP] ++ branches
      if branch = BRANCH_DEVELOP then branches
      else [branch] ++ branches

/-! ## Effects: the trace and the world -/

/-- An operand of a `log.Printf` call. -/
inductive Arg where
  | int (n : Nat)
  | str (s : String)
  | err (e : String)
  deriving DecidableEq, Repr

/-- One side effect of a run.  `exec name args result` is
`exec.Command(name, args...).Run()` together with the error it returned;
`log format args` is `log.Printf(format, args...)`; `chdir` and `readFile` are
`os.Chdir` and `ioutil.ReadFile` with the error they returned. -/
inductive Event where
  | log (format : String) (args : List Arg)
  | exec (name : String) (args : List String) (result : GoError)
  | chdir (dir : String) (result : GoError)
  | readFile (path : String) (result : GoError)
  deriving DecidableEq, Repr

/-- What the program cannot decide itself.  `run` is the outcome of an external
command; it is given the trace so far, so every single call may succeed or fail
independently of all the others.  `unmarshal` is `json.Unmarshal` into a
`GovendorConfig`. -/
structure World where
  run : List Event → String → List String → GoError
  chdir : String → GoError
  readFile : String → Except String String
  unmarshal : String → Except String GovendorConfig

/-- The call `exec.Command(name, args...).Run()`: ask the world, record the call
and its result. -/
def execRun (w : World) (name : String) (args : List String) (tr : List Event) :
    GoError × List Event :=
  let err := w.run tr name args
  (err, tr ++ [Event.exec name args err])

/-! ## The program -/

/-- `parseVendor` of `main.go`. -/
def parseVendor (w : World) (root : String) (tr : List Event) :
    Except String GovendorConfig × List Event :=
  let file := composePath root "vendor/vendor.json"
  let res := w.readFile file
  match res with
  | .error err => (.error err, tr ++ [Event.readFile file (some err)])
  | .ok data =>
    let tr := tr ++ [Event.readFile file none]
    match w.unmarshal data with
    | .error err => (.error err, tr)
    | .ok config => (.ok config, tr)

/-- `fixPackage` of `main.go`; the recursion follows the `for i := range branches`
loop, `continue` being the recursive call. -/
def fixPackage (w : World) (pckg : GovendorPackage) :
    List String → List Event → GoError × List Event
  | [], tr => (none, tr)
  | branch :: rest, tr =>
    let (err, tr) := execRun w "govendor" ["fetch", pckg.Path ++ "@" ++ branch] tr
    match err with
    | some e =>
      fixPackage w pckg rest
        (tr ++ [Event.log "Failed to switch '%v' to branch '%v'. Error: %v"
          [.str pckg.Path, .str branch, .err e]])
    | none =>
      (none, tr ++ [Event.log "Switched '%v' to branch '%v'" [.str pckg.Path, .str branch]])

/-- `removeOldSources` of `main.go`. -/
def removeOldSources (w : World) (path : String) (pckg : GovendorPackage) (tr : List Event) :
    GoError × List Event :=
  execRun w "rm" ["-rf", composePath (composePath path "vendor") pckg.Path] tr

/-- The body of the `for i := range config.Packages` loop of `processConfig`, from
index `i` on.  On a nil entry the read of `pckg.Path` in the loop's first
statement panics. -/
def processPackages (w : World) (repoLower : String) (T : CaseTable) (branches : List String)
    (path : String) : Nat → List (Option GovendorPackage) → List Event → Ending Unit × List Event
  | _, [], tr => (.returns (), tr)
  | _, none :: _, tr => (.panics, tr)
  | i, some pckg :: rest, tr =>
    if Contains (ToLower T pckg.Path) repoLower then
      let tr := tr ++ [Event.log "[%v] Running fix-package for: %v" [.int i, .str pckg.Path]]
      let (err, tr) := fixPackage w pckg branches tr
      match err with
      | some _ =>
        processPackages w repoLower T branches path (i + 1) rest
          (tr ++ [Event.log "[%v] Running fix-package failed" [.int i]])
      | none =>
        let tr := tr ++ [Event.log "[%v] Running fix-package done" [.int i]]
        let (_, tr) := removeOldSources w path pckg tr
        processPackages w repoLower T branches path (i + 1) rest
          (tr ++ [Event.log "[%v] Removed old" [.int i]])
    else
      processPackages w repoLower T branches path (i + 1) rest
        (tr ++ [Event.log "[%v] Nothing to do." [.int i]])

/-- `processConfig` of `main.go`. -/
def processConfig (w : World) (T : CaseTable) (config : GovendorConfig)
    (repo branch path : String) (tr : List Event) : Ending GoError × List Event :=
  let branches := prepareBranches branch
  let repoLower := ToLower T repo
  let tr := tr ++ [Event.log "Got packages: %v" [.int config.Packages.length]]
  match processPackages w repoLower T branches path 0 config.Packages tr with
  | (.panics, tr) => (.panics, tr)
  | (.returns _, tr) => (.returns none, tr ++ [Event.log "Processing done" []])

/-- `syncSources` of `main.go`. -/
def syncSources (w : World) (tr : List Event) : GoError × List Event :=
  execRun w "govendor" ["sync"] tr

/-- The values of the three command-line flags after `flag.Parse()`. -/
structure Flags where
  path : String
  branch : String
  rep : String
  deriving DecidableEq, Repr

/-- The flags as declared in `main`: a flag that is not given keeps its default. -/
def parseFlags (path branch rep : Option String) : Flags :=
  { path := path.getD "", branch := branch.getD "master", rep := rep.getD "github.com/coldze" }

/-- `main` of `main.go` after `flag.Parse()`: the exit code of the process (the
argument of `os.Exit`, or 2 when the run panics) and the trace of the run. -/
def main (w : World) (T : CaseTable) (f : Flags) : Nat × List Event :=
  if len f.path ≤ 0 then
    (1, [Event.log "Working dir not specified" []])
  else if len f.branch ≤ 0 then
    (1, [Event.log "Branch not specified" []])
  else
    let err := w.chdir f.path
    let tr := [Event.chdir f.path err]
    match err with
    | some e =>
      (1, tr ++ [Event.log "Failed to change dir to '%v'. Error: %v" [.str f.path, .err e]])
    | none =>
      if len f.rep ≤ 0 then
        (1, tr ++ [Event.log "Repository not specified" []])
      else
        match parseVendor w f.path tr with
        | (.error e, tr) =>
          (1, tr ++ [Event.log "Failed to parse vendor. Directory: %v. Error: %v"
            [.str f.path, .err e]])
        | (.ok config, tr) =>
          match processConfig w T config f.rep f.branch f.path tr with
          | (.panics, tr) => (2, tr)
          | (.returns (some e), tr) =>
            (1, tr ++ [Event.log
              "Failed to process config. Repo: %v. Branch: %v. Dir: %v. Error: %v"
              [.str f.rep, .str f.branch, .str f.path, .err e]])
          | (.returns none, tr) =>
            match syncSources w tr with
            | (some e, tr) => (1, tr ++ [Event.log "Failed to sync sources. Error: %v" [.err e]])
            | (none, tr) => (0, tr)

/-! ## Observations of a trace -/

/-- The command an event runs, when it runs one: name and arguments. -/
def callOf : Event → Option (String × List String)
  | .exec name args _ => some (name, args)
  | _ => none

/-- The external commands of a trace, in order. -/
def execCalls (tr : List Event) : List (String × List String) :=
  tr.filterMap callOf

/-- The external commands of a trace together with their results, in order. -/
def execEvents (tr : List Event) : List Event :=
  tr.filter fun e => (callOf e).isSome

/-- The index that a "Nothing to do" log line reports. -/
def nothingToDoAt : Event → Option Nat
  | .log format [.int i] => if format = "[%v] Nothing to do." then some i else none
  | _ => none

/-- The indices of the "Nothing to do" log lines of a trace, in order. -/
def nothingToDo (tr : List Event) : List Nat :=
  tr.filterMap nothingToDoAt

/-- The index and path reported by the log line that precedes a call of
`fixPackage`. -/
def fixStartAt : Event → Option (Nat × String)
  | .log format [.int i, .str p] =>
    if format = "[%v] Running fix-package for: %v" then some (i, p) else none
  | _ => none

/-- The records handed to `fixPackage` as the log of a trace reports them. -/
def fixStarted (tr : List Event) : List (Nat × String) :=
  tr.filterMap fixStartAt

/-- The command line of one fetch: `govendor fetch <path>@<branch>`. -/
def fetchCall (pckg : GovendorPackage) (branch : String) : String × List String :=
  ("govendor", ["fetch", pckg.Path ++ "@" ++ branch])

/-- The command line of one removal: `rm -rf <root>/vendor/<path>`. -/
def rmCall (root : String) (pckg : GovendorPackage) : String × List String :=
  ("rm", ["-rf", composePath (composePath root "vendor") pckg.Path])

/-- The command line of the final sync: `govendor sync`. -/
def syncCall : String × List String :=
  ("govendor", ["sync"])

/-- The result of a `govendor sync` command, when the event is one. -/
def syncResultAt : Event → Option GoError
  | .exec name args result => if (name, args) = syncCall then some result else none
  | _ => none

/-- The results of the `govendor sync` commands of a trace, in order. -/
def syncResults (tr : List Event) : List GoError :=
  tr.filterMap syncResultAt

/-- The records of a manifest that come before its first nil entry, which are
the entries the loop of `processConfig` reaches: all of them when no entry is
nil. -/
def recordsBeforeNil : List (Option GovendorPackage) → List GovendorPackage
  | some pckg :: rest => pckg :: recordsBeforeNil rest
  | _ => []

/-- The filter test of `processConfig` for a record path and the `-rep` value. -/
def matchesFilter (T : CaseTable) (path repo : String) : Bool :=
  Contains (ToLower T path) (ToLower T repo)

/-- `c'` is `c` with its letter case changed, or `c` itself: the upper-case or
lower-case form of `c` by Go's `unicode.ToUpper` and `unicode.ToLower`. -/
def caseChanged (T : CaseTable) (c c' : Char) : Prop :=
  c' = c ∨ c' = unicodeToUpper T c ∨ c' = unicodeToLower T c

/-- `s'` is `s` with the letter case of some of its characters changed. -/
def caseChangedStr (T : CaseTable) (s s' : String) : Prop :=
  List.Forall₂ (caseChanged T) s.data s'.data

/-- `c'` is `c` with its case changed as an ASCII letter (`A`-`Z`, `a`-`z`), or
`c` itself; `Char.toUpper` and `Char.toLower` change ASCII letters only. -/
def asciiCaseChanged (c c' : Char) : Prop :=
  c' = c ∨ c' = c.toUpper ∨ c' = c.toLower

/-- `c'` has the lower-case form of `c` under Go's `unicode.ToLower`. -/
def sameLower (T : CaseTable) (c c' : Char) : Prop :=
  unicodeToLower T c' = unicodeToLower T c

/-- `s'` is `s` with some characters replaced by characters of the same
lower-case form. -/
def sameLowerStr (T : CaseTable) (s s' : String) : Prop :=
  List.Forall₂ (sameLower T) s.data s'.data

/-! ## Concrete inputs used by the examples -/

/-- The entries of Go's `unicode.CaseRanges` for the Latin-1 letters U+00C0 to
U+00DE and U+00E0 to U+00FE (32 apart, without the signs U+00D7 and U+00F7), for
U+0130 (upper-case dotted I, lower case `i`), U+0131 (dotless i, upper case `I`)
and U+017F (long s, upper case `S`); the identity on every other code point,
none of which the examples contain. -/
def caseRangesExcerpt : CaseTable where
  lower r :=
    if 0xC0 ≤ r.toNat ∧ r.toNat ≤ 0xDE ∧ r.toNat ≠ 0xD7 then Char.ofNat (r.toNat + 32)
    else if r.toNat = 0x130 then Char.ofNat 0x69
    else r
  upper r :=
    if 0xE0 ≤ r.toNat ∧ r.toNat ≤ 0xFE ∧ r.toNat ≠ 0xF7 then Char.ofNat (r.toNat - 32)
    else if r.toNat = 0x131 then Char.ofNat 0x49
    else if r.toNat = 0x17F then Char.ofNat 0x53
    else r

/-- A record with path `github.com/coldze/a`. -/
def pkgA : GovendorPackage :=
  { CheckSum := "", Path := "github.com/coldze/a", Revisiong := "abc123",
    RevisionTime := "", Version := "", VersionExact := "" }

/-- A record with path `github.com/other/b`. -/
def pkgB : GovendorPackage :=
  { CheckSum := "", Path := "github.com/other/b", Revisiong := "def456",
    RevisionTime := "", Version := "", VersionExact := "" }

/-- The manifest of the two records. -/
def demoConfig : GovendorConfig := ⟨[some pkgA, some pkgB]⟩

/-- The text of a `vendor.json` that holds the two records. -/
def demoManifest : String :=
  "\x7b\"package\":[\x7b\"path\":\"github.com/coldze/a\",\"revision\":\"abc123\"\x7d," ++
  "\x7b\"path\":\"github.com/other/b\",\"revision\":\"def456\"\x7d]\x7d"

/-- The command line `-path /work -branch stage`. -/
def demoFlags : Flags := parseFlags (some "/work") (some "stage") none

/-- A world in which `/work/vendor/vendor.json` holds the manifest of the two
records, the fetch of `github.com/coldze/a@stage` fails and every other command
succeeds. -/
def demoWorld : World where
  run := fun _ name args =>
    if name = "govendor" ∧ args = ["fetch", "github.com/coldze/a@stage"] then
      some "exit status 1"
    else none
  chdir := fun _ => none
  readFile := fun file =>
    if file = "/work/vendor/vendor.json" then .ok demoManifest
    else .error "no such file or directory"
  unmarshal := fun data =>
    if data = demoManifest then .ok demoConfig
    else .error "unexpected end of JSON input"

/-- The same world with every external command failing. -/
def failingWorld : World :=
  { demoWorld with run := fun _ _ _ => some "exit status 1" }

/-- The same world with every fetch failing and every other command succeeding. -/
def fetchFailsWorld : World :=
  { demoWorld with
    run := fun _ _ args => if args.head? = some "fetch" then some "exit status 1" else none }

/-- The same world without a manifest file. -/
def noManifestWorld : World :=
  { demoWorld with readFile := fun _ => .error "no such file or directory" }

/-- The text of a `vendor.json` whose `package` array is `[null]`. -/
def nullManifest : String := "\x7b\"package\":[null]\x7d"

/-- A world in which `/work/vendor/vendor.json` holds `nullManifest`, which parses
without error into one nil entry, and every command succeeds. -/
def nullEntryWorld : World where
  run := fun _ _ _ => none
  chdir := fun _ => none
  readFile := fun file =>
    if file = "/work/vendor/vendor.json" then .ok nullManifest
    else .error "no such file or directory"
  unmarshal := fun data =>
    if data = nullManifest then .ok ⟨[none]⟩
    else .error "unexpected end of JSON input"

/-- The text of a `vendor.json` whose `package` array holds the record of
`github.com/coldze/a` followed by `null`. -/
def recordThenNullManifest : String :=
  "\x7b\"package\":[\x7b\"path\":\"github.com/coldze/a\",\"revision\":\"abc123\"\x7d,null]\x7d"

/-- A world in which `/work/vendor/vendor.json` holds `recordThenNullManifest` and
every command succeeds. -/
def recordThenNullWorld : World where
  run := fun _ _ _ => none
  chdir := fun _ => none
  readFile := fun file =>
    if file = "/work/vendor/vendor.json" then .ok recordThenNullManifest
    else .error "no such file or directory"
  unmarshal := fun data =>
    if data = recordThenNullManifest then .ok ⟨[some pkgA, none]⟩
    else .error "unexpected end of JSON input"

/-! ## Lemmas on strings -/

theorem data_append (a b : String) : (a ++ b).data = a.data ++ b.data := rfl

theorem TrimRight_data (s cutset : String) :
    (TrimRight s cutset).data = s.data.rdropWhile (fun c => cutset.data.contains c) := rfl

theorem TrimLeft_data (s cutset : String) :
    (TrimLeft s cutset).data = s.data.dropWhile (fun c => cutset.data.contains c) := rfl

/-- Trimming on the right does nothing to a string that ends in a character
outside the cutset. -/
theorem TrimRight_of_getLast (s cutset : String)
    (h : ∀ c, s.data.getLast? = some c → cutset.data.contains c = false) :
    TrimRight s cutset = s := by
  apply String.ext
  rw [TrimRight_data]
  rcases List.eq_nil_or_concat s.data with h0 | ⟨l, c, hl⟩
  · rw [h0]; rfl
  · rw [List.concat_eq_append] at hl
    rw [hl] at h ⊢
    have hc := h c (by simp)
    rw [List.rdropWhile_concat_neg]
    simpa using hc

/-- Trimming on the left does nothing to a string that starts with a character
outside the cutset. -/
theorem TrimLeft_of_head (s cutset : String)
    (h : ∀ c, s.data.head? = some c → cutset.data.contains c = false) :
    TrimLeft s cutset = s := by
  apply String.ext
  rw [TrimLeft_data]
  cases hs : s.data with
  | nil => rfl
  | cons c cs =>
    rw [hs] at h
    have hc := h c rfl
    rw [List.dropWhile_cons_of_neg]
    simpa using hc

/-- The vendor directory under a root: the inner `composePath` of
`removeOldSources`. -/
theorem composePath_vendor (r : String) :
    composePath r "vendor" = TrimRight r "/" ++ "/vendor" := by
  unfold composePath
  have h : TrimLeft "vendor" "/" = "vendor" := by decide
  rw [h]
  apply String.ext
  simp only [data_append, List.append_assoc]
  rfl

/-- The path `removeOldSources` deletes. -/
theorem composePath_vendor_pkg (r p : String) :
    composePath (composePath r "vendor") p
      = TrimRight r "/" ++ "/vendor/" ++ TrimLeft p "/" := by
  rw [composePath_vendor]
  have h : TrimRight (TrimRight r "/" ++ "/vendor") "/" = TrimRight r "/" ++ "/vendor" := by
    apply TrimRight_of_getLast
    intro c hc
    have h1 : (TrimRight r "/" ++ "/vendor").data
        = ((TrimRight r "/").data ++ ['/', 'v', 'e', 'n', 'd', 'o']) ++ ['r'] := by
      rw [data_append]; simp
    rw [h1, List.getLast?_concat] at hc
    cases hc
    decide
  unfold composePath at h ⊢
  rw [h]
  apply String.ext
  simp only [data_append, List.append_assoc]
  rfl

/-! ## Lemmas on traces -/

theorem execCalls_append (a b : List Event) :
    execCalls (a ++ b) = execCalls a ++ execCalls b := by
  simp [execCalls]

theorem execEvents_append (a b : List Event) :
    execEvents (a ++ b) = execEvents a ++ execEvents b := by
  simp [execEvents]

theorem nothingToDo_append (a b : List Event) :
    nothingToDo (a ++ b) = nothingToDo a ++ nothingToDo b := by
  simp [nothingToDo]

theorem fixStarted_append (a b : List Event) :
    fixStarted (a ++ b) = fixStarted a ++ fixStarted b := by
  simp [fixStarted]

/-- `fixPackage` returns `nil` on every path. -/
theorem fixPackage_fst (w : World) (pckg : GovendorPackage) :
    ∀ (branches : List String) (tr : List Event), (fixPackage w pckg branches tr).1 = none := by
  intro branches
  induction branches with
  | nil => intro tr; rfl
  | cons b rest ih =>
    intro tr
    simp only [fixPackage, execRun]
    cases h : w.run tr "govendor" ["fetch", pckg.Path ++ "@" ++ b] with
    | none => rfl
    | some e => exact ih _

/-- The commands of `fixPackage`: fetches on a prefix of the branches, at least
one when there is a branch at all. -/
theorem fixPackage_execCalls (w : World) (pckg : GovendorPackage) :
    ∀ (branches : List String) (tr : List Event),
      ∃ k : Nat, k ≤ branches.length ∧ (branches ≠ [] → 1 ≤ k) ∧
        execCalls (fixPackage w pckg branches tr).2
          = execCalls tr ++ (branches.take k).map (fetchCall pckg) := by
  intro branches
  induction branches with
  | nil => intro tr; exact ⟨0, by simp, by simp, by simp [fixPackage]⟩
  | cons b rest ih =>
    intro tr
    simp only [fixPackage, execRun]
    cases h : w.run tr "govendor" ["fetch", pckg.Path ++ "@" ++ b] with
    | none =>
      refine ⟨1, by simp, by simp, ?_⟩
      simp [execCalls_append, execCalls, callOf, fetchCall]
    | some e =>
      obtain ⟨k, hk, _, hes⟩ := ih
        (tr ++ [Event.exec "govendor" ["fetch", pckg.Path ++ "@" ++ b] (some e)]
          ++ [Event.log "Failed to switch '%v' to branch '%v'. Error: %v"
            [.str pckg.Path, .str b, .err e]])
      refine ⟨k + 1, by simpa using hk, by simp, ?_⟩
      simp only [hes]
      simp [execCalls_append, execCalls, callOf, fetchCall]

/-- The log lines `fixPackage` writes are none of those `processConfig` writes. -/
theorem fixPackage_logs (w : World) (pckg : GovendorPackage) :
    ∀ (branches : List String) (tr : List Event),
      nothingToDo (fixPackage w pckg branches tr).2 = nothingToDo tr
        ∧ fixStarted (fixPackage w pckg branches tr).2 = fixStarted tr := by
  intro branches
  induction branches with
  | nil => intro tr; exact ⟨rfl, rfl⟩
  | cons b rest ih =>
    intro tr
    simp only [fixPackage, execRun]
    cases h : w.run tr "govendor" ["fetch", pckg.Path ++ "@" ++ b] with
    | none =>
      simp [nothingToDo_append, fixStarted_append, nothingToDo, fixStarted, nothingToDoAt,
        fixStartAt]
    | some e =>
      have := ih
        (tr ++ [Event.exec "govendor" ["fetch", pckg.Path ++ "@" ++ b] (some e)]
          ++ [Event.log "Failed to switch '%v' to branch '%v'. Error: %v"
            [.str pckg.Path, .str b, .err e]])
      simp only [this]
      simp [nothingToDo_append, fixStarted_append, nothingToDo, fixStarted, nothingToDoAt,
        fixStartAt]

/-- One step of the loop of `processConfig` on a record that passes the filter. -/
theorem processPackages_cons_match (w : World) (repoLower : String) (T : CaseTable)
    (branches : List String) (path : String) (i : Nat) (pckg : GovendorPackage)
    (rest : List (Option GovendorPackage)) (tr : List Event)
    (hm : Contains (ToLower T pckg.Path) repoLower = true) :
    processPackages w repoLower T branches path i (some pckg :: rest) tr
      = processPackages w repoLower T branches path (i + 1) rest
          ((removeOldSources w path pckg
            ((fixPackage w pckg branches
              (tr ++ [Event.log "[%v] Running fix-package for: %v" [.int i, .str pckg.Path]])).2
              ++ [Event.log "[%v] Running fix-package done" [.int i]])).2
            ++ [Event.log "[%v] Removed old" [.int i]]) := by
  have h1 := fixPackage_fst w pckg branches
    (tr ++ [Event.log "[%v] Running fix-package for: %v" [.int i, .str pckg.Path]])
  rcases hfp : fixPackage w pckg branches
    (tr ++ [Event.log "[%v] Running fix-package for: %v" [.int i, .str pckg.Path]])
    with ⟨err, tr2⟩
  rw [hfp] at h1
  simp only at h1
  subst h1
  simp [processPackages, hm, hfp]

/-- One step of the loop of `processConfig` on a record that fails the filter. -/
theorem processPackages_cons_skip (w : World) (repoLower : String) (T : CaseTable)
    (branches : List String) (path : String) (i : Nat) (pckg : GovendorPackage)
    (rest : List (Option GovendorPackage)) (tr : List Event)
    (hm : Contains (ToLower T pckg.Path) repoLower = false) :
    processPackages w repoLower T branches path i (some pckg :: rest) tr
      = processPackages w repoLower T branches path (i + 1) rest
          (tr ++ [Event.log "[%v] Nothing to do." [.int i]]) := by
  simp [processPackages, hm]

/-- The loop of `processConfig` panics on a nil entry, before any effect. -/
theorem processPackages_cons_nil (w : World) (repoLower : String) (T : CaseTable)
    (branches : List String) (path : String) (i : Nat)
    (rest : List (Option GovendorPackage)) (tr : List Event) :
    processPackages w repoLower T branches path i (none :: rest) tr = (.panics, tr) := by
  simp [processPackages]

/-- The loop of `processConfig` panics exactly when the manifest has a nil entry. -/
theorem processPackages_ending (w : World) (repoLower : String) (T : CaseTable)
    (branches : List String) (path : String) :
    ∀ (pkgs : List (Option GovendorPackage)) (i : Nat) (tr : List Event),
      (processPackages w repoLower T branches path i pkgs tr).1
        = if none ∈ pkgs then Ending.panics else Ending.returns () := by
  intro pkgs
  induction pkgs with
  | nil => intro i tr; simp [processPackages]
  | cons entry rest ih =>
    intro i tr
    cases entry with
    | none => rw [processPackages_cons_nil]; simp
    | some pckg =>
      cases hm : Contains (ToLower T pckg.Path) repoLower with
      | true =>
        rw [processPackages_cons_match w repoLower T branches path i pckg rest tr hm, ih]
        simp
      | false =>
        rw [processPackages_cons_skip w repoLower T branches path i pckg rest tr hm, ih]
        simp

/-- A manifest without a nil entry consists of the records `recordsBeforeNil`
gives. -/
theorem recordsBeforeNil_of_no_nil :
    ∀ (pkgs : List (Option GovendorPackage)), none ∉ pkgs →
      (recordsBeforeNil pkgs).map some = pkgs := by
  intro pkgs
  induction pkgs with
  | nil => intro _; rfl
  | cons entry rest ih =>
    intro h
    cases entry with
    | none => exact absurd (List.mem_cons_self _ _) h
    | some pckg =>
      have hrest : none ∉ rest := fun hmem => h (List.mem_cons_of_mem _ hmem)
      simp [recordsBeforeNil, ih hrest]

/-- The records before the first nil entry are records of the manifest. -/
theorem mem_of_mem_recordsBeforeNil :
    ∀ (pkgs : List (Option GovendorPackage)) (p : GovendorPackage),
      p ∈ recordsBeforeNil pkgs → some p ∈ pkgs := by
  intro pkgs
  induction pkgs with
  | nil => intro p h; simp [recordsBeforeNil] at h
  | cons entry rest ih =>
    intro p h
    cases entry with
    | none => simp [recordsBeforeNil] at h
    | some pckg =>
      simp only [recordsBeforeNil, List.mem_cons] at h
      rcases h with rfl | h
      · exact List.mem_cons_self _ _
      · exact List.mem_cons_of_mem _ (ih p h)

/-- The "Nothing to do" lines and the "Running fix-package for" lines the loop of
`processConfig` adds to the log: one line for each record before the first nil
entry. -/
theorem processPackages_logs (w : World) (repoLower : String) (T : CaseTable)
    (branches : List String) (path : String) :
    ∀ (pkgs : List (Option GovendorPackage)) (i : Nat) (tr : List Event),
      nothingToDo (processPackages w repoLower T branches path i pkgs tr).2
          = nothingToDo tr
            ++ (((recordsBeforeNil pkgs).enumFrom i).filter
                  (fun ip => !Contains (ToLower T ip.2.Path) repoLower)).map Prod.fst
        ∧ fixStarted (processPackages w repoLower T branches path i pkgs tr).2
          = fixStarted tr
            ++ (((recordsBeforeNil pkgs).enumFrom i).filter
                  (fun ip => Contains (ToLower T ip.2.Path) repoLower)).map
                (fun ip => (ip.1, ip.2.Path)) := by
  intro pkgs
  induction pkgs with
  | nil => intro i tr; simp [processPackages, recordsBeforeNil]
  | cons entry rest ih =>
    intro i tr
    cases entry with
    | none => rw [processPackages_cons_nil]; simp [recordsBeforeNil]
    | some pckg =>
      cases hm : Contains (ToLower T pckg.Path) repoLower with
      | true =>
        rw [processPackages_cons_match w repoLower T branches path i pckg rest tr hm]
        obtain ⟨h1, h2⟩ := ih (i + 1)
          ((removeOldSources w path pckg
              ((fixPackage w pckg branches
                (tr ++ [Event.log "[%v] Running fix-package for: %v"
                  [.int i, .str pckg.Path]])).2
                ++ [Event.log "[%v] Running fix-package done" [.int i]])).2
              ++ [Event.log "[%v] Removed old" [.int i]])
        obtain ⟨f1, f2⟩ := fixPackage_logs w pckg branches
          (tr ++ [Event.log "[%v] Running fix-package for: %v" [.int i, .str pckg.Path]])
        rw [h1, h2]
        simp only [removeOldSources, execRun, nothingToDo_append, fixStarted_append, f1, f2]
        simp [nothingToDo, fixStarted, nothingToDoAt, fixStartAt, List.enumFrom_cons, hm,
          recordsBeforeNil]
      | false =>
        rw [processPackages_cons_skip w repoLower T branches path i pckg rest tr hm]
        obtain ⟨h1, h2⟩ := ih (i + 1) (tr ++ [Event.log "[%v] Nothing to do." [.int i]])
        rw [h1, h2]
        simp [nothingToDo_append, fixStarted_append, nothingToDo, fixStarted, nothingToDoAt,
          fixStartAt, List.enumFrom_cons, hm, recordsBeforeNil]

/-- The commands the loop of `processConfig` runs: for every record before the
first nil entry that passes the filter, in order, fetches on a prefix of the
branches and then one removal; nothing for the other entries. -/
theorem processPackages_execCalls (w : World) (repoLower : String) (T : CaseTable)
    (branches : List String) (path : String) :
    ∀ (pkgs : List (Option GovendorPackage)) (i : Nat) (tr : List Event),
      ∃ ks : List Nat,
        ks.length
          = ((recordsBeforeNil pkgs).filter
              (fun p => Contains (ToLower T p.Path) repoLower)).length
        ∧ (∀ k ∈ ks, k ≤ branches.length ∧ (branches ≠ [] → 1 ≤ k))
        ∧ execCalls (processPackages w repoLower T branches path i pkgs tr).2
          = execCalls tr
            ++ (List.zip ((recordsBeforeNil pkgs).filter
                  (fun p => Contains (ToLower T p.Path) repoLower)) ks).flatMap
                (fun pk => (branches.take pk.2).map (fetchCall pk.1) ++ [rmCall path pk.1]) := by
  intro pkgs
  induction pkgs with
  | nil => intro i tr; exact ⟨[], by simp [recordsBeforeNil], by simp, by simp [processPackages]⟩
  | cons entry rest ih =>
    intro i tr
    cases entry with
    | none =>
      rw [processPackages_cons_nil]
      exact ⟨[], by simp [recordsBeforeNil], by simp, by simp⟩
    | some pckg =>
      cases hm : Contains (ToLower T pckg.Path) repoLower with
      | true =>
        rw [processPackages_cons_match w repoLower T branches path i pckg rest tr hm]
        obtain ⟨ks, hlen, hks, hcalls⟩ := ih (i + 1)
          ((removeOldSources w path pckg
              ((fixPackage w pckg branches
                (tr ++ [Event.log "[%v] Running fix-package for: %v"
                  [.int i, .str pckg.Path]])).2
                ++ [Event.log "[%v] Running fix-package done" [.int i]])).2
              ++ [Event.log "[%v] Removed old" [.int i]])
        obtain ⟨k, hk, hk1, hfix⟩ := fixPackage_execCalls w pckg branches
          (tr ++ [Event.log "[%v] Running fix-package for: %v" [.int i, .str pckg.Path]])
        refine ⟨k :: ks, by simp [recordsBeforeNil, hm, hlen], ?_, ?_⟩
        · intro k' hk'
          rcases List.mem_cons.mp hk' with rfl | h
          · exact ⟨hk, hk1⟩
          · exact hks k' h
        · rw [hcalls]
          simp only [removeOldSources, execRun, execCalls_append, hfix]
          simp [execCalls, callOf, hm, rmCall, List.flatMap_cons, recordsBeforeNil]
      | false =>
        rw [processPackages_cons_skip w repoLower T branches path i pckg rest tr hm]
        obtain ⟨ks, hlen, hks, hcalls⟩ :=
          ih (i + 1) (tr ++ [Event.log "[%v] Nothing to do." [.int i]])
        refine ⟨ks, by simp [recordsBeforeNil, hm, hlen], hks, ?_⟩
        rw [hcalls]
        simp [execCalls_append, execCalls, callOf, hm, recordsBeforeNil]

/-- Filtering an indexed list by a test on the entries keeps as many places as the
list has entries that pass. -/
theorem length_filter_enumFrom {α : Type} (q : α → Bool) :
    ∀ (l : List α) (i : Nat), ((l.enumFrom i).filter (fun ip => q ip.2)).length = l.countP q := by
  intro l
  induction l with
  | nil => intro i; rfl
  | cons a l ih =>
    intro i
    cases h : q a <;> simp [List.enumFrom_cons, List.filter_cons, List.countP_cons, h, ih (i + 1)]

/-- A string has no byte exactly when it is the empty string. -/
theorem len_le_zero_iff (s : String) : len s ≤ 0 ↔ s = "" := by
  unfold len
  constructor
  · intro h
    apply String.ext
    cases hs : s.data with
    | nil => rfl
    | cons c cs =>
      exfalso
      have hmk : s = ⟨c :: cs⟩ := String.ext hs
      rw [hmk, String.utf8ByteSize_mk, String.utf8Len_cons] at h
      have := Char.utf8Size_pos c
      omega
  · rintro rfl; decide

theorem syncResults_append (a b : List Event) :
    syncResults (a ++ b) = syncResults a ++ syncResults b := by
  simp [syncResults]

/-- The branch sequence is never empty. -/
theorem prepareBranches_ne_nil (branch : String) : prepareBranches branch ≠ [] := by
  unfold prepareBranches
  split_ifs <;> simp

/-- How `processConfig` ends: it panics when the manifest has a nil entry, and
returns `nil` otherwise. -/
theorem processConfig_fst (w : World) (T : CaseTable) (config : GovendorConfig)
    (repo branch path : String) (tr : List Event) :
    (processConfig w T config repo branch path tr).1
      = if none ∈ config.Packages then Ending.panics else Ending.returns none := by
  have h := processPackages_ending w (ToLower T repo) T (prepareBranches branch) path
    config.Packages 0 (tr ++ [Event.log "Got packages: %v" [.int config.Packages.length]])
  rcases hp : processPackages w (ToLower T repo) T (prepareBranches branch) path 0
    config.Packages (tr ++ [Event.log "Got packages: %v" [.int config.Packages.length]])
    with ⟨e, t⟩
  rw [hp] at h
  simp only at h
  by_cases hn : none ∈ config.Packages
  · rw [if_pos hn] at h ⊢
    subst h
    simp only [processConfig, hp]
  · rw [if_neg hn] at h ⊢
    subst h
    simp only [processConfig, hp]

/-- The trace of `processConfig`: the "Got packages" line, the trace of the loop,
and the "Processing done" line unless the loop has panicked. -/
theorem processConfig_snd (w : World) (T : CaseTable) (config : GovendorConfig)
    (repo branch path : String) (tr : List Event) :
    (processConfig w T config repo branch path tr).2
      = (processPackages w (ToLower T repo) T (prepareBranches branch) path 0 config.Packages
          (tr ++ [Event.log "Got packages: %v" [.int config.Packages.length]])).2
        ++ (if none ∈ config.Packages then [] else [Event.log "Processing done" []]) := by
  have h := processPackages_ending w (ToLower T repo) T (prepareBranches branch) path
    config.Packages 0 (tr ++ [Event.log "Got packages: %v" [.int config.Packages.length]])
  rcases hp : processPackages w (ToLower T repo) T (prepareBranches branch) path 0
    config.Packages (tr ++ [Event.log "Got packages: %v" [.int config.Packages.length]])
    with ⟨e, t⟩
  rw [hp] at h
  simp only at h
  by_cases hn : none ∈ config.Packages
  · rw [if_pos hn] at h ⊢
    subst h
    simp only [processConfig, hp, List.append_nil]
  · rw [if_neg hn] at h ⊢
    subst h
    simp only [processConfig, hp]

/-- The "Nothing to do" lines and the "Running fix-package for" lines of
`processConfig`. -/
theorem processConfig_logs (w : World) (T : CaseTable) (config : GovendorConfig)
    (repo branch path : String) (tr : List Event) :
    nothingToDo (processConfig w T config repo branch path tr).2
        = nothingToDo tr
          ++ (((recordsBeforeNil config.Packages).enum).filter
                (fun ip => !matchesFilter T ip.2.Path repo)).map Prod.fst
      ∧ fixStarted (processConfig w T config repo branch path tr).2
        = fixStarted tr
          ++ (((recordsBeforeNil config.Packages).enum).filter
                (fun ip => matchesFilter T ip.2.Path repo)).map
              (fun ip => (ip.1, ip.2.Path)) := by
  obtain ⟨hn, hf⟩ := processPackages_logs w (ToLower T repo) T (prepareBranches branch) path
    config.Packages 0 (tr ++ [Event.log "Got packages: %v" [.int config.Packages.length]])
  rw [processConfig_snd, nothingToDo_append, fixStarted_append, hn, hf]
  constructor
  · by_cases h : none ∈ config.Packages <;>
      simp [h, nothingToDo_append, nothingToDo, nothingToDoAt, List.enum, matchesFilter]
  · by_cases h : none ∈ config.Packages <;>
      simp [h, fixStarted_append, fixStarted, fixStartAt, List.enum, matchesFilter]

/-- The commands of `processConfig`: for every record before the first nil entry
that passes the filter, in manifest order, at least one fetch on a prefix of the
branch sequence and then one removal. -/
theorem processConfig_execCalls (w : World) (T : CaseTable) (config : GovendorConfig)
    (repo branch path : String) (tr : List Event) :
    ∃ ks : List Nat,
      ks.length
        = ((recordsBeforeNil config.Packages).filter
            (fun p => matchesFilter T p.Path repo)).length
      ∧ (∀ k ∈ ks, 1 ≤ k ∧ k ≤ (prepareBranches branch).length)
      ∧ execCalls (processConfig w T config repo branch path tr).2
        = execCalls tr
          ++ (List.zip ((recordsBeforeNil config.Packages).filter
                (fun p => matchesFilter T p.Path repo)) ks).flatMap
              (fun pk => ((prepareBranches branch).take pk.2).map (fetchCall pk.1)
                ++ [rmCall path pk.1]) := by
  obtain ⟨ks, hlen, hks, hcalls⟩ := processPackages_execCalls w (ToLower T repo) T
    (prepareBranches branch) path config.Packages 0
    (tr ++ [Event.log "Got packages: %v" [.int config.Packages.length]])
  refine ⟨ks, hlen, fun k hk => ⟨(hks k hk).2 (prepareBranches_ne_nil branch), (hks k hk).1⟩, ?_⟩
  rw [processConfig_snd, execCalls_append, hcalls]
  by_cases h : none ∈ config.Packages <;>
    simp [h, execCalls_append, execCalls, callOf, matchesFilter]

/-- Every command of `processConfig` is a fetch or a removal for a record of the
manifest that passes the filter. -/
theorem processConfig_calls_mem (w : World) (T : CaseTable) (config : GovendorConfig)
    (repo branch path : String) (tr : List Event) :
    ∃ pre : List (String × List String),
      execCalls (processConfig w T config repo branch path tr).2 = execCalls tr ++ pre
      ∧ ∀ c ∈ pre, ∃ p, some p ∈ config.Packages ∧ matchesFilter T p.Path repo = true
          ∧ ((∃ b ∈ prepareBranches branch, c = fetchCall p b) ∨ c = rmCall path p) := by
  obtain ⟨ks, _, _, hcalls⟩ := processConfig_execCalls w T config repo branch path tr
  refine ⟨_, hcalls, ?_⟩
  intro c hc
  rw [List.mem_flatMap] at hc
  obtain ⟨⟨p, k⟩, hpk, hc⟩ := hc
  have hp := (List.of_mem_zip hpk).1
  rw [List.mem_filter] at hp
  refine ⟨p, mem_of_mem_recordsBeforeNil _ p hp.1, hp.2, ?_⟩
  rw [List.mem_append] at hc
  rcases hc with hc | hc
  · left
    rw [List.mem_map] at hc
    obtain ⟨b, hb, rfl⟩ := hc
    exact ⟨b, List.mem_of_mem_take hb, rfl⟩
  · right
    simpa using hc

/-- A trace without a `govendor sync` command has no `govendor sync` result. -/
theorem syncResults_eq_nil (tr : List Event) (h : syncCall ∉ execCalls tr) :
    syncResults tr = [] := by
  induction tr with
  | nil => rfl
  | cons e tr ih =>
    cases e with
    | exec name args result =>
      have hne : (name, args) ≠ syncCall := by
        intro heq
        apply h
        simp [execCalls, callOf, heq]
      have htl : syncCall ∉ execCalls tr := by
        intro hmem
        apply h
        simp only [execCalls, List.filterMap_cons, callOf]
        exact List.mem_cons_of_mem _ hmem
      have := ih htl
      simp only [syncResults] at this
      simp [syncResults, syncResultAt, hne, this]
    | log format args =>
      have := ih (by simpa [execCalls, callOf] using h)
      simp only [syncResults] at this
      simp [syncResults, syncResultAt, this]
    | chdir dir result =>
      have := ih (by simpa [execCalls, callOf] using h)
      simp only [syncResults] at this
      simp [syncResults, syncResultAt, this]
    | readFile path result =>
      have := ih (by simpa [execCalls, callOf] using h)
      simp only [syncResults] at this
      simp [syncResults, syncResultAt, this]

/-- No fetch and no removal is the `govendor sync` command. -/
theorem syncCall_ne (root : String) (p : GovendorPackage) (b : String) :
    syncCall ≠ fetchCall p b ∧ syncCall ≠ rmCall root p := by
  constructor <;> simp [syncCall, fetchCall, rmCall]

/-- No command of `processConfig` is the `govendor sync` command. -/
theorem processConfig_no_sync (w : World) (T : CaseTable) (config : GovendorConfig)
    (repo branch path : String) (tr : List Event) (h : syncCall ∉ execCalls tr) :
    syncCall ∉ execCalls (processConfig w T config repo branch path tr).2 := by
  obtain ⟨pre, hpre, hmem⟩ := processConfig_calls_mem w T config repo branch path tr
  rw [hpre, List.mem_append]
  rintro (hin | hin)
  · exact h hin
  · obtain ⟨p, _, _, hc | hc⟩ := hmem _ hin
    · obtain ⟨b, _, hb⟩ := hc
      exact (syncCall_ne path p b).1 hb
    · exact (syncCall_ne path p "").2 hc

/-- A run whose flags are set, whose directory change succeeds and whose manifest
is read and parsed goes on to `processConfig`; when the manifest has no nil entry
it then goes on to `syncSources`. -/
theorem main_of_parsed (w : World) (T : CaseTable) (f : Flags) (data : String)
    (config : GovendorConfig)
    (hpath : f.path ≠ "") (hbranch : f.branch ≠ "") (hrep : f.rep ≠ "")
    (hcd : w.chdir f.path = none)
    (hread : w.readFile (composePath f.path "vendor/vendor.json") = .ok data)
    (hjson : w.unmarshal data = .ok config)
    (hnil : none ∉ config.Packages) :
    main w T f
      = (match syncSources w
            (processConfig w T config f.rep f.branch f.path
              [Event.chdir f.path none,
               Event.readFile (composePath f.path "vendor/vendor.json") none]).2 with
         | (some e, tr) => (1, tr ++ [Event.log "Failed to sync sources. Error: %v" [.err e]])
         | (none, tr) => (0, tr)) := by
  have h1 : ¬ len f.path ≤ 0 := fun h => hpath ((len_le_zero_iff _).mp h)
  have h2 : ¬ len f.branch ≤ 0 := fun h => hbranch ((len_le_zero_iff _).mp h)
  have h3 : ¬ len f.rep ≤ 0 := fun h => hrep ((len_le_zero_iff _).mp h)
  have hfst := processConfig_fst w T config f.rep f.branch f.path
    [Event.chdir f.path none, Event.readFile (composePath f.path "vendor/vendor.json") none]
  rw [if_neg hnil] at hfst
  simp only [main, h1, h2, h3, hcd, parseVendor, hread, hjson, if_false]
  rcases hpc : processConfig w T config f.rep f.branch f.path
    ([Event.chdir f.path none]
      ++ [Event.readFile (composePath f.path "vendor/vendor.json") none]) with ⟨e, t⟩
  have hpc' : processConfig w T config f.rep f.branch f.path
    [Event.chdir f.path none, Event.readFile (composePath f.path "vendor/vendor.json") none]
      = (e, t) := hpc
  rw [hpc'] at hfst ⊢
  simp only at hfst
  subst hfst
  rfl

/-- A run whose flags are set, whose directory change succeeds and whose manifest
is read and parsed into a slice with a nil entry panics in `processConfig`: it
ends with exit code 2, before `syncSources`. -/
theorem main_of_parsed_nil (w : World) (T : CaseTable) (f : Flags) (data : String)
    (config : GovendorConfig)
    (hpath : f.path ≠ "") (hbranch : f.branch ≠ "") (hrep : f.rep ≠ "")
    (hcd : w.chdir f.path = none)
    (hread : w.readFile (composePath f.path "vendor/vendor.json") = .ok data)
    (hjson : w.unmarshal data = .ok config)
    (hnil : none ∈ config.Packages) :
    main w T f
      = (2, (processConfig w T config f.rep f.branch f.path
              [Event.chdir f.path none,
               Event.readFile (composePath f.path "vendor/vendor.json") none]).2) := by
  have h1 : ¬ len f.path ≤ 0 := fun h => hpath ((len_le_zero_iff _).mp h)
  have h2 : ¬ len f.branch ≤ 0 := fun h => hbranch ((len_le_zero_iff _).mp h)
  have h3 : ¬ len f.rep ≤ 0 := fun h => hrep ((len_le_zero_iff _).mp h)
  have hfst := processConfig_fst w T config f.rep f.branch f.path
    [Event.chdir f.path none, Event.readFile (composePath f.path "vendor/vendor.json") none]
  rw [if_pos hnil] at hfst
  simp only [main, h1, h2, h3, hcd, parseVendor, hread, hjson, if_false]
  rcases hpc : processConfig w T config f.rep f.branch f.path
    ([Event.chdir f.path none]
      ++ [Event.readFile (composePath f.path "vendor/vendor.json") none]) with ⟨e, t⟩
  have hpc' : processConfig w T config f.rep f.branch f.path
    [Event.chdir f.path none, Event.readFile (composePath f.path "vendor/vendor.json") none]
      = (e, t) := hpc
  rw [hpc'] at hfst ⊢
  simp only at hfst
  subst hfst
  rfl

/-- In a run that reaches `processConfig` on a manifest without a nil entry the
sync is run once, and the exit code is 0 when it succeeded and 1 when it failed. -/
theorem main_exit_sync (w : World) (T : CaseTable) (f : Flags) (data : String)
    (config : GovendorConfig)
    (hpath : f.path ≠ "") (hbranch : f.branch ≠ "") (hrep : f.rep ≠ "")
    (hcd : w.chdir f.path = none)
    (hread : w.readFile (composePath f.path "vendor/vendor.json") = .ok data)
    (hjson : w.unmarshal data = .ok config)
    (hnil : none ∉ config.Packages) :
    ∃ r : GoError, syncResults (main w T f).2 = [r]
      ∧ (main w T f).1 = (if r = none then 0 else 1) := by
  have hp := syncResults_eq_nil _ (processConfig_no_sync w T config f.rep f.branch f.path
    [Event.chdir f.path none, Event.readFile (composePath f.path "vendor/vendor.json") none]
    (by simp [execCalls, callOf]))
  rw [main_of_parsed w T f data config hpath hbranch hrep hcd hread hjson hnil]
  simp only [syncSources, execRun]
  cases hs : w.run (processConfig w T config f.rep f.branch f.path
      [Event.chdir f.path none,
       Event.readFile (composePath f.path "vendor/vendor.json") none]).2 "govendor" ["sync"] with
  | none =>
    refine ⟨none, ?_, rfl⟩
    simp only [syncResults_append, hp]
    simp [syncResults, syncResultAt, syncCall]
  | some e =>
    refine ⟨some e, ?_, rfl⟩
    simp only [syncResults_append, hp]
    simp [syncResults, syncResultAt, syncCall]

/-- In a run that reaches `processConfig` on a manifest with a nil entry the sync
is not run, and the exit code is 2. -/
theorem main_exit_panic (w : World) (T : CaseTable) (f : Flags) (data : String)
    (config : GovendorConfig)
    (hpath : f.path ≠ "") (hbranch : f.branch ≠ "") (hrep : f.rep ≠ "")
    (hcd : w.chdir f.path = none)
    (hread : w.readFile (composePath f.path "vendor/vendor.json") = .ok data)
    (hjson : w.unmarshal data = .ok config)
    (hnil : none ∈ config.Packages) :
    (main w T f).1 = 2 ∧ syncCall ∉ execCalls (main w T f).2
      ∧ syncResults (main w T f).2 = [] := by
  have hno := processConfig_no_sync w T config f.rep f.branch f.path
    [Event.chdir f.path none, Event.readFile (composePath f.path "vendor/vendor.json") none]
    (by simp [execCalls, callOf])
  rw [main_of_parsed_nil w T f data config hpath hbranch hrep hcd hread hjson hnil]
  exact ⟨rfl, hno, syncResults_eq_nil _ hno⟩

/-- Lower-casing the ASCII upper-case form of a character gives the lower case of
the character. -/
theorem unicodeToLower_toUpper (T : CaseTable) (c : Char) :
    unicodeToLower T c.toUpper = unicodeToLower T c := by
  by_cases h : 97 ≤ c.toNat ∧ c.toNat ≤ 122
  · have hup : c.toUpper = Char.ofNat (c.toNat - 32) := by
      simp only [Char.toUpper, ge_iff_le, h, and_self, if_true]
    have hnat : (Char.ofNat (c.toNat - 32)).toNat = c.toNat - 32 := by
      obtain ⟨h1, h2⟩ := h
      generalize c.toNat = n at *
      interval_cases n <;> rfl
    have hA : 'A'.toNat = 65 := rfl
    have hZ : 'Z'.toNat = 90 := rfl
    have ha : 'a'.toNat = 97 := rfl
    have hl : unicodeToLower T c = c := by
      unfold unicodeToLower
      rw [if_pos (by omega), if_neg (by omega)]
    rw [hl, hup]
    unfold unicodeToLower
    rw [hnat, if_pos (by omega), if_pos (by omega), hA, ha]
    have : c.toNat - 32 + (97 - 65) = c.toNat := by omega
    rw [this, Char.ofNat_toNat]
  · have hup : c.toUpper = c := by
      simp only [Char.toUpper, ge_iff_le, h, if_false]
    rw [hup]

/-- Lower-casing the ASCII lower-case form of a character gives the lower case of
the character. -/
theorem unicodeToLower_toLower (T : CaseTable) (c : Char) :
    unicodeToLower T c.toLower = unicodeToLower T c := by
  by_cases h : 65 ≤ c.toNat ∧ c.toNat ≤ 90
  · have hlo : c.toLower = Char.ofNat (c.toNat + 32) := by
      simp only [Char.toLower, ge_iff_le, h, and_self, if_true]
    have hnat : (Char.ofNat (c.toNat + 32)).toNat = c.toNat + 32 := by
      obtain ⟨h1, h2⟩ := h
      generalize c.toNat = n at *
      interval_cases n <;> rfl
    have hA : 'A'.toNat = 65 := rfl
    have hZ : 'Z'.toNat = 90 := rfl
    have ha : 'a'.toNat = 97 := rfl
    have hl : unicodeToLower T c = Char.ofNat (c.toNat + 32) := by
      unfold unicodeToLower
      rw [if_pos (by omega), if_pos (by omega), hA, ha]
    rw [hl, hlo]
    unfold unicodeToLower
    rw [hnat, if_pos (by omega), if_neg (by omega)]
  · have hlo : c.toLower = c := by
      simp only [Char.toLower, ge_iff_le, h, if_false]
    rw [hlo]

/-- Replacing characters by characters of the same lower-case form does not
change the lower-cased characters. -/
theorem map_unicodeToLower_sameLower (T : CaseTable) (l l' : List Char)
    (h : List.Forall₂ (sameLower T) l l') :
    l'.map (unicodeToLower T) = l.map (unicodeToLower T) := by
  induction h with
  | nil => rfl
  | cons hc _ ih =>
    rw [List.map_cons, List.map_cons, ih]
    congr 1

/-- Replacing characters by characters of the same lower-case form does not
change the lower-cased string. -/
theorem ToLower_sameLower (T : CaseTable) (s s' : String)
    (h : sameLowerStr T s s') : ToLower T s' = ToLower T s :=
  String.ext (map_unicodeToLower_sameLower T s.data s'.data h)

/-- A change of case of an ASCII letter keeps the lower-case form, whatever the
table says on the other code points. -/
theorem sameLower_of_ascii (T : CaseTable) (c c' : Char) (h : asciiCaseChanged c c') :
    sameLower T c c' := by
  unfold sameLower
  rcases h with rfl | rfl | rfl
  · rfl
  · exact unicodeToLower_toUpper T _
  · exact unicodeToLower_toLower T _

/-- On an ASCII letter `Char.toUpper` is `unicode.ToUpper`, and it leaves every
other character alone. -/
theorem toUpper_eq_or (T : CaseTable) (c : Char) :
    c.toUpper = c ∨ c.toUpper = unicodeToUpper T c := by
  by_cases h : 97 ≤ c.toNat ∧ c.toNat ≤ 122
  · right
    have ha : 'a'.toNat = 97 := rfl
    have hz : 'z'.toNat = 122 := rfl
    have hA : 'A'.toNat = 65 := rfl
    unfold unicodeToUpper
    rw [if_pos (by omega), if_pos (by omega), ha, hA]
    simp only [Char.toUpper, ge_iff_le, h, and_self, if_true]
  · left
    simp only [Char.toUpper, ge_iff_le, h, if_false]

/-- On an ASCII letter `Char.toLower` is `unicode.ToLower`, and it leaves every
other character alone. -/
theorem toLower_eq_or (T : CaseTable) (c : Char) :
    c.toLower = c ∨ c.toLower = unicodeToLower T c := by
  by_cases h : 65 ≤ c.toNat ∧ c.toNat ≤ 90
  · right
    have ha : 'a'.toNat = 97 := rfl
    have hA : 'A'.toNat = 65 := rfl
    have hZ : 'Z'.toNat = 90 := rfl
    unfold unicodeToLower
    rw [if_pos (by omega), if_pos (by omega), ha, hA]
    simp only [Char.toLower, ge_iff_le, h, and_self, if_true]
  · left
    simp only [Char.toLower, ge_iff_le, h, if_false]

/-- A change of case of an ASCII letter is a change of case by Go's mappings. -/
theorem caseChanged_of_ascii (T : CaseTable) (c c' : Char) (h : asciiCaseChanged c c') :
    caseChanged T c c' := by
  rcases h with rfl | rfl | rfl
  · exact Or.inl rfl
  · rcases toUpper_eq_or T c with h | h
    · exact Or.inl h
    · exact Or.inr (Or.inl h)
  · rcases toLower_eq_or T c with h | h
    · exact Or.inl h
    · exact Or.inr (Or.inr h)

/-! ## The branch sequencer -/

/-- C1: for every requested branch `b`, `prepareBranches b` is `[master]` when
`b` is `master`, `[stage, master]` when `b` is `stage`, `[develop, stage, master]`
when `b` is `develop`, and `[b, develop, stage, master]` for every other `b`, the
empty string included. -/
theorem prepareBranches_spec (b : String) :
    prepareBranches b =
        (if b = "master" then ["master"]
         else if b = "stage" then ["stage", "master"]
         else if b = "develop" then ["develop", "stage", "master"]
         else [b, "develop", "stage", "master"])
      ∧ prepareBranches "stage" = ["stage", "master"]
      ∧ prepareBranches "feature-x" = ["feature-x", "develop", "stage", "master"]
      ∧ prepareBranches "" = ["", "develop", "stage", "master"] := by
  refine ⟨rfl, by decide, by decide, by decide⟩

/-- C6: for every requested branch `b`, `prepareBranches b` is non-empty, has no
duplicate entry, ends in `master`, and has length 1 when `b` is `master`. -/
theorem prepareBranches_invariant (b : String) :
    prepareBranches b ≠ []
      ∧ (prepareBranches b).Nodup
      ∧ (prepareBranches b).getLast? = some "master"
      ∧ (if b = "master" then (prepareBranches b).length = 1 else True) := by
  unfold prepareBranches BRANCH_MASTER BRANCH_STAGE BRANCH_DEVELOP
  by_cases h1 : b = "master"
  · subst h1; decide
  · by_cases h2 : b = "stage"
    · subst h2; decide
    · by_cases h3 : b = "develop"
      · subst h3; decide
      · simp [h1, h2, h3]

/-! ## Removal of the vendored copy -/

/-- C10: for every root directory `r` and package record with import path `p`,
`removeOldSources` runs `rm -rf` exactly once, on `r` without its trailing
slashes, followed by `/vendor/`, followed by `p` without its leading slashes;
that is `r ++ "/vendor/" ++ p` when `r` does not end and `p` does not start with
a slash. -/
theorem removeOldSources_target (w : World) (r : String) (pckg : GovendorPackage)
    (tr : List Event) :
    (removeOldSources w r pckg tr).2
        = tr ++ [Event.exec "rm"
            ["-rf", TrimRight r "/" ++ "/vendor/" ++ TrimLeft pckg.Path "/"]
            (removeOldSources w r pckg tr).1]
      ∧ ((r.data.getLast? ≠ some '/' ∧ pckg.Path.data.head? ≠ some '/') →
          (removeOldSources w r pckg tr).2
            = tr ++ [Event.exec "rm" ["-rf", r ++ "/vendor/" ++ pckg.Path]
                (removeOldSources w r pckg tr).1]) := by
  have key : (removeOldSources w r pckg tr).2
        = tr ++ [Event.exec "rm"
            ["-rf", TrimRight r "/" ++ "/vendor/" ++ TrimLeft pckg.Path "/"]
            (removeOldSources w r pckg tr).1] := by
    simp only [removeOldSources, execRun, composePath_vendor_pkg]
  refine ⟨key, ?_⟩
  rintro ⟨hr, hp⟩
  rw [key]
  have h1 : TrimRight r "/" = r := by
    apply TrimRight_of_getLast
    intro c hc
    have : c ≠ '/' := by rintro rfl; exact hr hc
    simp [this]
  have h2 : TrimLeft pckg.Path "/" = pckg.Path := by
    apply TrimLeft_of_head
    intro c hc
    have : c ≠ '/' := by rintro rfl; exact hp hc
    simp [this]
  rw [h1, h2]

/-- The root `/work//` and the path `/github.com/coldze/a` give the target
`/work/vendor/github.com/coldze/a`, and so do the root `/work` and the path
`github.com/coldze/a`, as `removeOldSources_target` says. -/
theorem removeOldSources_target_witness :
    (removeOldSources demoWorld "/work//"
        { pkgA with Path := "/github.com/coldze/a" } []).2
        = [Event.exec "rm" ["-rf", "/work/vendor/github.com/coldze/a"] none]
      ∧ (removeOldSources demoWorld "/work" pkgA []).2
        = [] ++ [Event.exec "rm" ["-rf", "/work" ++ "/vendor/" ++ pkgA.Path]
            (removeOldSources demoWorld "/work" pkgA []).1] :=
  ⟨by decide,
   (removeOldSources_target demoWorld "/work" pkgA []).2 ⟨by decide, by decide⟩⟩

/-! ## `fixPackage` -/

/-- C2: for every record and branch sequence, whatever each single fetch
answers, `fixPackage` issues its fetches in sequence order, each on
`path ++ "@" ++ branch`, and stops at the first that succeeds: the attempts are
failed fetches on a prefix of the sequence, followed by one successful fetch on
the next branch unless the whole sequence has failed; nothing after a successful
fetch is attempted. -/
theorem fixPackage_attempts (w : World) (pckg : GovendorPackage) (branches : List String)
    (tr : List Event) :
    ∃ es : List String, es.length ≤ branches.length ∧
      execEvents (fixPackage w pckg branches tr).2
        = execEvents tr
          ++ List.zipWith
              (fun b e => Event.exec "govendor" ["fetch", pckg.Path ++ "@" ++ b] (some e))
              branches es
          ++ (match branches.drop es.length with
              | [] => []
              | b :: _ => [Event.exec "govendor" ["fetch", pckg.Path ++ "@" ++ b] none]) := by
  induction branches generalizing tr with
  | nil => exact ⟨[], by simp, by simp [fixPackage]⟩
  | cons b rest ih =>
    simp only [fixPackage, execRun]
    cases h : w.run tr "govendor" ["fetch", pckg.Path ++ "@" ++ b] with
    | none =>
      refine ⟨[], by simp, ?_⟩
      simp [execEvents_append, execEvents, callOf]
    | some e =>
      obtain ⟨es, hlen, hes⟩ := ih
        (tr ++ [Event.exec "govendor" ["fetch", pckg.Path ++ "@" ++ b] (some e)]
          ++ [Event.log "Failed to switch '%v' to branch '%v'. Error: %v"
            [.str pckg.Path, .str b, .err e]])
      refine ⟨e :: es, by simpa using hlen, ?_⟩
      simp only [hes]
      simp [execEvents_append, execEvents, callOf]

/-- The fetch on the first of three branches fails and the fetch on the second
succeeds: the third branch is not attempted, as `fixPackage_attempts` says. -/
theorem fixPackage_attempts_witness :
    execEvents (fixPackage demoWorld pkgA ["stage", "develop", "master"] []).2
        = [Event.exec "govendor" ["fetch", "github.com/coldze/a@stage"] (some "exit status 1"),
           Event.exec "govendor" ["fetch", "github.com/coldze/a@develop"] none]
      ∧ ∃ es : List String, es.length ≤ ["stage", "develop", "master"].length ∧
          execEvents (fixPackage demoWorld pkgA ["stage", "develop", "master"] []).2
            = execEvents []
              ++ List.zipWith
                  (fun b e => Event.exec "govendor" ["fetch", pkgA.Path ++ "@" ++ b] (some e))
                  ["stage", "develop", "master"] es
              ++ (match ["stage", "develop", "master"].drop es.length with
                  | [] => []
                  | b :: _ => [Event.exec "govendor" ["fetch", pkgA.Path ++ "@" ++ b] none]) :=
  ⟨by decide, fixPackage_attempts demoWorld pkgA ["stage", "develop", "master"] []⟩

/-! ## `processConfig` -/

/-- C4 as stated fails: in the manifest `[null, a]` the record `a` matches the
filter, yet `processConfig` panics on the nil entry before it: the record is
never handed to `fixPackage`, no line is logged for it and no command is run. -/
theorem processConfig_filter_counterexample :
    matchesFilter caseRangesExcerpt pkgA.Path "github.com/coldze" = true
      ∧ processConfig demoWorld caseRangesExcerpt ⟨[none, some pkgA]⟩
          "github.com/coldze" "stage" "/work" []
        = (Ending.panics, [Event.log "Got packages: %v" [.int 2]]) := by
  decide

/-- C4, amended: for every manifest and filter `repo`, `processConfig` reaches the
records before the first nil entry of the manifest, which are all N records when
no entry is nil (on a nil entry it panics).  It hands to `fixPackage` exactly the
reached records whose path contains the filter when both are lower-cased, in
manifest order and once each (the "Running fix-package for" lines, and the
commands: for each such record, in order, its fetches followed by its removal),
and logs "Nothing to do" for exactly the other reached records, with no command
for them; the "Nothing to do" lines are as many as the reached records that do
not match, and the two groups together are all reached records. -/
theorem processConfig_filter (w : World) (T : CaseTable) (config : GovendorConfig)
    (repo branch path : String) (tr : List Event) :
    fixStarted (processConfig w T config repo branch path tr).2
        = fixStarted tr
          ++ (((recordsBeforeNil config.Packages).enum).filter
                (fun ip => matchesFilter T ip.2.Path repo)).map
              (fun ip => (ip.1, ip.2.Path))
      ∧ nothingToDo (processConfig w T config repo branch path tr).2
        = nothingToDo tr
          ++ (((recordsBeforeNil config.Packages).enum).filter
                (fun ip => !matchesFilter T ip.2.Path repo)).map Prod.fst
      ∧ (∃ ks : List Nat,
          ks.length
            = ((recordsBeforeNil config.Packages).filter
                (fun p => matchesFilter T p.Path repo)).length
          ∧ (∀ k ∈ ks, 1 ≤ k ∧ k ≤ (prepareBranches branch).length)
          ∧ execCalls (processConfig w T config repo branch path tr).2
            = execCalls tr
              ++ (List.zip ((recordsBeforeNil config.Packages).filter
                    (fun p => matchesFilter T p.Path repo)) ks).flatMap
                  (fun pk => ((prepareBranches branch).take pk.2).map (fetchCall pk.1)
                    ++ [rmCall path pk.1]))
      ∧ (nothingToDo (processConfig w T config repo branch path tr).2).length
        = (nothingToDo tr).length
          + (recordsBeforeNil config.Packages).countP (fun p => !matchesFilter T p.Path repo)
      ∧ (recordsBeforeNil config.Packages).countP (fun p => !matchesFilter T p.Path repo)
          + (recordsBeforeNil config.Packages).countP (fun p => matchesFilter T p.Path repo)
        = (recordsBeforeNil config.Packages).length
      ∧ (none ∉ config.Packages →
          (recordsBeforeNil config.Packages).map some = config.Packages
            ∧ (recordsBeforeNil config.Packages).length = config.Packages.length
            ∧ (processConfig w T config repo branch path tr).1 = Ending.returns none)
      ∧ (none ∈ config.Packages →
          (processConfig w T config repo branch path tr).1 = Ending.panics) := by
  obtain ⟨hN, hF⟩ := processConfig_logs w T config repo branch path tr
  have hfst := processConfig_fst w T config repo branch path tr
  refine ⟨hF, hN, processConfig_execCalls w T config repo branch path tr, ?_, ?_, ?_, ?_⟩
  · rw [hN, List.length_append, List.length_map, List.enum]
    exact congrArg _ (length_filter_enumFrom
      (fun p : GovendorPackage => !matchesFilter T p.Path repo)
      (recordsBeforeNil config.Packages) 0)
  · have := List.length_eq_countP_add_countP (fun p => matchesFilter T p.Path repo)
      (recordsBeforeNil config.Packages)
    simp only [Bool.not_eq_true] at this
    rw [this, Nat.add_comm]
    congr 1
    apply List.countP_congr
    intro a _
    simp
  · intro hnil
    have hall := recordsBeforeNil_of_no_nil config.Packages hnil
    refine ⟨hall, ?_, ?_⟩
    · have := congrArg List.length hall
      simpa using this
    · rw [hfst, if_neg hnil]
  · intro hnil
    rw [hfst, if_pos hnil]

/-- The manifest of `github.com/coldze/a` and `github.com/other/b` with the filter
`github.com/coldze`: the first record is handed to `fixPackage`, "Nothing to do"
is logged for the second, and no entry is nil, so `processConfig` returns `nil`,
as `processConfig_filter` says. -/
theorem processConfig_filter_witness :
    fixStarted (processConfig demoWorld caseRangesExcerpt demoConfig
        "github.com/coldze" "stage" "/work" []).2 = [(0, "github.com/coldze/a")]
      ∧ nothingToDo (processConfig demoWorld caseRangesExcerpt demoConfig
          "github.com/coldze" "stage" "/work" []).2 = [1]
      ∧ execCalls (processConfig demoWorld caseRangesExcerpt demoConfig
          "github.com/coldze" "stage" "/work" []).2
        = [("govendor", ["fetch", "github.com/coldze/a@stage"]),
           ("govendor", ["fetch", "github.com/coldze/a@master"]),
           ("rm", ["-rf", "/work/vendor/github.com/coldze/a"])]
      ∧ ((recordsBeforeNil demoConfig.Packages).map some = demoConfig.Packages
        ∧ (recordsBeforeNil demoConfig.Packages).length = demoConfig.Packages.length
        ∧ (processConfig demoWorld caseRangesExcerpt demoConfig
            "github.com/coldze" "stage" "/work" []).1 = Ending.returns none) :=
  ⟨by decide, by decide, by decide,
   (processConfig_filter demoWorld caseRangesExcerpt demoConfig
      "github.com/coldze" "stage" "/work" []).2.2.2.2.2.1 (by decide)⟩

/-! ## `main` -/

/-- C7 as stated fails: with the manifest `[null]` the flags are set, the
directory change succeeds and the manifest is read and parsed without error, yet
the run panics in `processConfig`: exit code 2, and no command at all, so no
sync. -/
theorem main_sync_once_counterexample :
    nullEntryWorld.chdir demoFlags.path = none
      ∧ nullEntryWorld.readFile (composePath demoFlags.path "vendor/vendor.json")
        = .ok nullManifest
      ∧ nullEntryWorld.unmarshal nullManifest = .ok ⟨[none]⟩
      ∧ main nullEntryWorld caseRangesExcerpt demoFlags
        = (2, [Event.chdir "/work" none, Event.readFile "/work/vendor/vendor.json" none,
               Event.log "Got packages: %v" [.int 1]])
      ∧ (execCalls (main nullEntryWorld caseRangesExcerpt demoFlags).2).count syncCall = 0 :=
  ⟨rfl, rfl, rfl, by decide, by decide⟩

/-- C7, amended: in every run whose flags are set, whose directory change
succeeds and whose manifest is read and parsed, whatever the fetches and removals
answer: when the manifest has no nil entry, the sync command is run exactly once,
and it is the last command, every fetch and every removal of the run coming
before it; when the manifest has a nil entry, the run panics with exit code 2 and
the sync command is not run. -/
theorem main_sync_once (w : World) (T : CaseTable) (f : Flags) (data : String)
    (config : GovendorConfig)
    (hpath : f.path ≠ "") (hbranch : f.branch ≠ "") (hrep : f.rep ≠ "")
    (hcd : w.chdir f.path = none)
    (hread : w.readFile (composePath f.path "vendor/vendor.json") = .ok data)
    (hjson : w.unmarshal data = .ok config) :
    (none ∉ config.Packages →
        (execCalls (main w T f).2).count syncCall = 1
          ∧ ∃ pre : List (String × List String),
              execCalls (main w T f).2 = pre ++ [syncCall]
              ∧ syncCall ∉ pre
              ∧ ∀ c ∈ pre, (∃ p b, c = fetchCall p b) ∨ (∃ p, c = rmCall f.path p))
      ∧ (none ∈ config.Packages →
          (main w T f).1 = 2 ∧ (execCalls (main w T f).2).count syncCall = 0) := by
  constructor
  · intro hnil
    obtain ⟨pre, hpre, hmem⟩ := processConfig_calls_mem w T config f.rep f.branch f.path
      [Event.chdir f.path none, Event.readFile (composePath f.path "vendor/vendor.json") none]
    have h0 : execCalls
        [Event.chdir f.path none,
         Event.readFile (composePath f.path "vendor/vendor.json") none] = [] := rfl
    rw [h0, List.nil_append] at hpre
    have hno : syncCall ∉ pre := by
      intro hin
      obtain ⟨p, _, _, h | h⟩ := hmem _ hin
      · obtain ⟨b, _, hb⟩ := h
        exact (syncCall_ne f.path p b).1 hb
      · exact (syncCall_ne f.path p "").2 h
    have hcalls : execCalls (main w T f).2 = pre ++ [syncCall] := by
      rw [main_of_parsed w T f data config hpath hbranch hrep hcd hread hjson hnil]
      simp only [syncSources, execRun]
      cases hs : w.run (processConfig w T config f.rep f.branch f.path
          [Event.chdir f.path none,
           Event.readFile (composePath f.path "vendor/vendor.json") none]).2
          "govendor" ["sync"]
        <;> simp only [execCalls_append, hpre]
        <;> simp [execCalls, callOf, syncCall]
    refine ⟨?_, pre, hcalls, hno, ?_⟩
    · rw [hcalls, List.count_append, List.count_eq_zero.mpr hno]
      simp
    · intro c hc
      obtain ⟨p, _, _, h | h⟩ := hmem c hc
      · obtain ⟨b, _, hb⟩ := h
        exact Or.inl ⟨p, b, hb⟩
      · exact Or.inr ⟨p, h⟩
  · intro hnil
    obtain ⟨h2, hno, _⟩ :=
      main_exit_panic w T f data config hpath hbranch hrep hcd hread hjson hnil
    exact ⟨h2, List.count_eq_zero.mpr hno⟩

/-- The end-to-end scenario: two records, filter `github.com/coldze`, branch
`stage`, the fetch on `stage` failing; the commands of the run, and the sync at
the end as `main_sync_once` says. -/
theorem main_sync_once_witness :
    execCalls (main demoWorld caseRangesExcerpt demoFlags).2
        = [("govendor", ["fetch", "github.com/coldze/a@stage"]),
           ("govendor", ["fetch", "github.com/coldze/a@master"]),
           ("rm", ["-rf", "/work/vendor/github.com/coldze/a"]),
           ("govendor", ["sync"])]
      ∧ ((execCalls (main demoWorld caseRangesExcerpt demoFlags).2).count syncCall = 1
        ∧ ∃ pre : List (String × List String),
            execCalls (main demoWorld caseRangesExcerpt demoFlags).2 = pre ++ [syncCall]
            ∧ syncCall ∉ pre
            ∧ ∀ c ∈ pre, (∃ p b, c = fetchCall p b) ∨ (∃ p, c = rmCall demoFlags.path p)) :=
  ⟨by decide,
   (main_sync_once demoWorld caseRangesExcerpt demoFlags demoManifest demoConfig
    (by decide) (by decide) (by decide) rfl rfl rfl).1 (by decide)⟩

/-- C8: every fatal error that precedes package processing (an empty `-path`,
`-branch` or `-rep`, a failed change of directory, a manifest file that cannot
be read, manifest content that does not parse) ends the run with exit code 1
and without any external command: no fetch, no removal, no sync. -/
theorem main_fatal_before_processing (w : World) (T : CaseTable) (f : Flags)
    (h : f.path = "" ∨ f.branch = "" ∨ f.rep = "" ∨ w.chdir f.path ≠ none
      ∨ (∃ e, w.readFile (composePath f.path "vendor/vendor.json") = .error e)
      ∨ (∃ data e, w.readFile (composePath f.path "vendor/vendor.json") = .ok data
          ∧ w.unmarshal data = .error e)) :
    (main w T f).1 = 1 ∧ execCalls (main w T f).2 = [] := by
  by_cases h1 : len f.path ≤ 0
  · simp [main, h1, execCalls, callOf]
  by_cases h2 : len f.branch ≤ 0
  · simp [main, h1, h2, execCalls, callOf]
  cases hcd : w.chdir f.path with
  | some e => simp [main, h1, h2, hcd, execCalls, callOf]
  | none =>
    by_cases h3 : len f.rep ≤ 0
    · simp [main, h1, h2, h3, hcd, execCalls, callOf]
    cases hread : w.readFile (composePath f.path "vendor/vendor.json") with
    | error e => simp [main, h1, h2, h3, hcd, parseVendor, hread, execCalls, callOf]
    | ok data =>
      cases hjson : w.unmarshal data with
      | error e => simp [main, h1, h2, h3, hcd, parseVendor, hread, hjson, execCalls, callOf]
      | ok config =>
        exfalso
        rcases h with h | h | h | h | ⟨e, h⟩ | ⟨d, e, h, h'⟩
        · exact h1 ((len_le_zero_iff _).mpr h)
        · exact h2 ((len_le_zero_iff _).mpr h)
        · exact h3 ((len_le_zero_iff _).mpr h)
        · exact h hcd
        · rw [hread] at h; cases h
        · rw [hread] at h
          cases h
          rw [hjson] at h'
          cases h'

/-- The manifest file is absent: exit code 1, a failed read and one log line,
no command, as `main_fatal_before_processing` says. -/
theorem main_fatal_before_processing_witness :
    (main noManifestWorld caseRangesExcerpt demoFlags).2
        = [Event.chdir "/work" none,
           Event.readFile "/work/vendor/vendor.json" (some "no such file or directory"),
           Event.log "Failed to parse vendor. Directory: %v. Error: %v"
             [.str "/work", .err "no such file or directory"]]
      ∧ ((main noManifestWorld caseRangesExcerpt demoFlags).1 = 1
        ∧ execCalls (main noManifestWorld caseRangesExcerpt demoFlags).2 = []) :=
  ⟨by decide,
   main_fatal_before_processing noManifestWorld caseRangesExcerpt demoFlags
    (Or.inr (Or.inr (Or.inr (Or.inr (Or.inl ⟨"no such file or directory", rfl⟩)))))⟩

/-- C9 as stated fails: with the manifest `[a, null]` the flags are set, the
directory change succeeds and the manifest is parsed; the record is fetched and
its old copy removed, then the run panics on the nil entry: the exit code is 2,
neither 0 nor 1, and there is no sync whose result it could follow. -/
theorem exit_code_counterexample :
    recordThenNullWorld.unmarshal recordThenNullManifest = .ok ⟨[some pkgA, none]⟩
      ∧ (main recordThenNullWorld caseRangesExcerpt demoFlags).1 = 2
      ∧ execCalls (main recordThenNullWorld caseRangesExcerpt demoFlags).2
        = [("govendor", ["fetch", "github.com/coldze/a@stage"]),
           ("rm", ["-rf", "/work/vendor/github.com/coldze/a"])]
      ∧ syncResults (main recordThenNullWorld caseRangesExcerpt demoFlags).2 = [] :=
  ⟨rfl, by decide, by decide, by decide⟩

/-- C9, amended: `processConfig` never returns an error, and the outcomes of the
fetches and removals do not change the exit code.  A run that reaches package
processing on a manifest without a nil entry ends with exit code 0 when its sync
succeeded and 1 when it failed; on a manifest with a nil entry it panics with
exit code 2 before the sync.  So two runs on the same flags and manifest that
differ only in what the external commands answered end with the same exit code as
soon as the sync succeeds in both or in neither. -/
theorem exit_code_ignores_packages (w : World) (T : CaseTable) (f : Flags) (data : String)
    (config : GovendorConfig)
    (hpath : f.path ≠ "") (hbranch : f.branch ≠ "") (hrep : f.rep ≠ "")
    (hcd : w.chdir f.path = none)
    (hread : w.readFile (composePath f.path "vendor/vendor.json") = .ok data)
    (hjson : w.unmarshal data = .ok config) :
    (∀ (w' : World) (c : GovendorConfig) (repo branch path : String) (tr : List Event)
        (e : String), (processConfig w' T c repo branch path tr).1 ≠ Ending.returns (some e))
      ∧ (none ∉ config.Packages →
          ∃ r : GoError, syncResults (main w T f).2 = [r]
            ∧ (main w T f).1 = (if r = none then 0 else 1))
      ∧ (none ∈ config.Packages →
          syncResults (main w T f).2 = [] ∧ (main w T f).1 = 2)
      ∧ ∀ run' : List Event → String → List String → GoError,
          (syncResults (main { w with run := run' } T f).2 = [none]
              ↔ syncResults (main w T f).2 = [none])
            → (main { w with run := run' } T f).1 = (main w T f).1 := by
  refine ⟨?_, ?_, ?_, ?_⟩
  · intro w' c repo branch path tr e
    rw [processConfig_fst]
    split_ifs <;> simp
  · exact main_exit_sync w T f data config hpath hbranch hrep hcd hread hjson
  · intro hnil
    obtain ⟨h2, _, hs⟩ :=
      main_exit_panic w T f data config hpath hbranch hrep hcd hread hjson hnil
    exact ⟨hs, h2⟩
  · intro run' hiff
    by_cases hnil : none ∈ config.Packages
    · rw [(main_exit_panic w T f data config hpath hbranch hrep hcd hread hjson hnil).1,
        (main_exit_panic { w with run := run' } T f data config hpath hbranch hrep hcd hread
          hjson hnil).1]
    · obtain ⟨r, hr, he⟩ :=
        main_exit_sync w T f data config hpath hbranch hrep hcd hread hjson hnil
      obtain ⟨r', hr', he'⟩ := main_exit_sync { w with run := run' } T f data config
        hpath hbranch hrep hcd hread hjson hnil
      rw [he, he']
      rw [hr, hr'] at hiff
      have hrr : r' = none ↔ r = none := by
        constructor
        · intro h
          have := hiff.mp (by rw [h])
          simpa using this
        · intro h
          have := hiff.mpr (by rw [h])
          simpa using this
      by_cases h : r = none
      · rw [if_pos h, if_pos (hrr.mpr h)]
      · rw [if_neg h, if_neg (fun h' => h (hrr.mp h'))]

/-- Every fetch and every removal fails and the sync fails too, or only one fetch
fails and the sync succeeds: the exit code follows the sync, as
`exit_code_ignores_packages` says. -/
theorem exit_code_ignores_packages_witness :
    (main demoWorld caseRangesExcerpt demoFlags).1 = 0
      ∧ (main failingWorld caseRangesExcerpt demoFlags).1 = 1
      ∧ (main { failingWorld with
            run := fun _ _ args => if args = ["sync"] then none else some "exit status 1" }
          caseRangesExcerpt demoFlags).1 = 0
      ∧ (∃ r : GoError, syncResults (main failingWorld caseRangesExcerpt demoFlags).2 = [r]
            ∧ (main failingWorld caseRangesExcerpt demoFlags).1 = (if r = none then 0 else 1))
      ∧ ∀ run' : List Event → String → List String → GoError,
          (syncResults (main { failingWorld with run := run' } caseRangesExcerpt demoFlags).2
                = [none]
              ↔ syncResults (main failingWorld caseRangesExcerpt demoFlags).2 = [none])
            → (main { failingWorld with run := run' } caseRangesExcerpt demoFlags).1
              = (main failingWorld caseRangesExcerpt demoFlags).1 :=
  ⟨by decide, by decide, by decide,
   (exit_code_ignores_packages failingWorld caseRangesExcerpt demoFlags demoManifest
    demoConfig (by decide) (by decide) (by decide) rfl rfl rfl).2.1 (by decide),
   (exit_code_ignores_packages failingWorld caseRangesExcerpt demoFlags demoManifest
    demoConfig (by decide) (by decide) (by decide) rfl rfl rfl).2.2.2⟩

/-- C3 on the code: with every fetch failing for the one matching record,
`processConfig` still runs the removal of that record's vendored copy, and the
removal goes through. -/
theorem processConfig_removes_after_failed_fetches :
    execEvents (processConfig fetchFailsWorld caseRangesExcerpt ⟨[some pkgA]⟩
        "github.com/coldze" "stage" "/work" []).2
      = [Event.exec "govendor" ["fetch", "github.com/coldze/a@stage"] (some "exit status 1"),
         Event.exec "govendor" ["fetch", "github.com/coldze/a@master"] (some "exit status 1"),
         Event.exec "rm" ["-rf", "/work/vendor/github.com/coldze/a"] none] := by
  decide

/-! ## The filter -/

/-- C5 as stated fails: the upper case of the dotless `ı` (U+0131) is `I`, the
lower case of `I` is `i`; the path `ı` matches the filter `ı`, and the same path
with its letter in upper case, `I`, does not. -/
theorem matchesFilter_case_counterexample :
    caseChangedStr caseRangesExcerpt "ı" "I"
      ∧ matchesFilter caseRangesExcerpt "ı" "ı" = true
      ∧ matchesFilter caseRangesExcerpt "I" "ı" = false :=
  ⟨List.Forall₂.cons (Or.inr (Or.inl (by decide))) List.Forall₂.nil, by decide, by decide⟩

/-- C5, amended: matching ignores every change of case that keeps the lower-case
form.  For every case table, record path and filter, whether the record matches
is unchanged when characters of the path or of the filter are replaced by
characters with the same lower-case form under `unicode.ToLower`; every change of
case of an ASCII letter is such a replacement, and so is every change of a
character `c` to its upper-case form whenever that form lower-cases to the lower
case of `c`; in particular the path `GitHub.com/ColdZe/foo` matches the filter
`github.com/coldze`. -/
theorem matchesFilter_case_insensitive (T : CaseTable) (p p' f f' : String)
    (hp : sameLowerStr T p p') (hf : sameLowerStr T f f') :
    matchesFilter T p' f' = matchesFilter T p f
      ∧ (∀ c c' : Char, asciiCaseChanged c c' → caseChanged T c c' ∧ sameLower T c c')
      ∧ (∀ c : Char, sameLower T c (unicodeToLower T c) →
          unicodeToLower T (unicodeToUpper T c) = unicodeToLower T c →
          ∀ c', caseChanged T c c' → sameLower T c c')
      ∧ matchesFilter T "GitHub.com/ColdZe/foo" "github.com/coldze" = true := by
  refine ⟨?_, ?_, ?_, rfl⟩
  · unfold matchesFilter
    rw [ToLower_sameLower T p p' hp, ToLower_sameLower T f f' hf]
  · intro c c' h
    exact ⟨caseChanged_of_ascii T c c' h, sameLower_of_ascii T c c' h⟩
  · intro c hlow hup c' h
    rcases h with rfl | rfl | rfl
    · rfl
    · exact hup
    · exact hlow

/-- The path `Café/Foo` against the filter `café`, in lower case, in upper case
and mixed: all match, as `matchesFilter_case_insensitive` says; `É` (U+00C9) and
`é` (U+00E9) have the same lower-case form. -/
theorem matchesFilter_case_insensitive_witness :
    matchesFilter caseRangesExcerpt "github.com/Café/Foo" "café" = true
      ∧ matchesFilter caseRangesExcerpt "GITHUB.COM/CAFÉ/FOO" "CAFÉ"
        = matchesFilter caseRangesExcerpt "github.com/Café/Foo" "café" :=
  ⟨by decide,
   (matchesFilter_case_insensitive caseRangesExcerpt "github.com/Café/Foo"
      "GITHUB.COM/CAFÉ/FOO" "café" "CAFÉ"
      (by unfold sameLowerStr sameLower; decide)
      (by unfold sameLowerStr sameLower; decide)).1⟩


end GoDep
